import Mathlib

/-!
Verification of the accessibility-tree extraction, enrichment and pruning
engine in `ae/utils/get_detailed_accessibility_tree.py`.

The Python code manipulates JSON-like dictionaries (accessibility nodes)
and the live DOM through JavaScript evaluation.  We embed:

* accessibility nodes as a rose tree `AXNode` carrying an association
  list of string-keyed values plus an optional children list (the
  `children` dictionary key is represented by the `Option`);
* DOM elements as association lists of string attributes plus the
  structural facts (tag name, id, type, innerText) the JavaScript reads;
* the two JavaScript round trips of enrichment (`document.querySelector`
  by mmid, and the text-content fallback lookup) as an oracle `DomEnv`;
* the control flow of `do_get_accessibility_info` as a function over a
  record saying which of its steps raises.

Python values that can appear in a node are strings, booleans and
integers (`JVal`).  Where Python would raise `TypeError` on a value of
an impossible type (e.g. a non-string `name` used in a substring test —
accessibility snapshots only ever put strings there), the embedding
totalises the operation to a no-op; these branches are unreachable for
real snapshots.
-/

/-- A JSON-like scalar value stored in an accessibility node. -/
inductive JVal where
  | s : String → JVal
  | b : Bool → JVal
  | i : Int → JVal
deriving DecidableEq, Repr

/-- Python truthiness of a value: empty string, `False` and `0` are falsy. -/
def jTruthy : JVal → Bool
  | .s v => v ≠ ""
  | .b b => b
  | .i n => n ≠ 0

/-- Python `==` on scalars; `True == 1` and `False == 0` hold in Python. -/
def pyJEq : JVal → JVal → Bool
  | .s a, .s b => a = b
  | .b a, .b b => a = b
  | .i a, .i b => a = b
  | .b a, .i n => (if a then (1 : Int) else 0) = n
  | .i n, .b a => n = (if a then (1 : Int) else 0)
  | _, _ => false

/-- Python `node.get(k) == node.get(k')` on optional values
(`None == None` is `True` in Python). -/
def pyJEqO : Option JVal → Option JVal → Bool
  | some a, some b => pyJEq a b
  | none, none => true
  | _, _ => false

/-- Attribute dictionary of a node: string keys to scalar values. -/
abbrev Attrs := List (String × JVal)

/-- Dictionary lookup (`node.get(k)`): first matching key. -/
def lookupA {β : Type} : List (String × β) → String → Option β
  | [], _ => none
  | (k', v) :: rest, k => if k = k' then some v else lookupA rest k

/-- Dictionary delete (`node.pop(k, None)` / `del node[k]`). -/
def delA {β : Type} : List (String × β) → String → List (String × β)
  | [], _ => []
  | (k', v) :: rest, k => if k' = k then delA rest k else (k', v) :: delA rest k

/-- Dictionary write (`node[k] = v`): drop any old binding, append the new. -/
def setA {β : Type} (l : List (String × β)) (k : String) (v : β) : List (String × β) :=
  delA l k ++ [(k, v)]

theorem lookupA_append {β : Type} (l l' : List (String × β)) (k : String) :
    lookupA (l ++ l') k = ((lookupA l k).map some).getD (lookupA l' k) := by
  induction l with
  | nil => simp [lookupA]
  | cons p rest ih =>
      cases p with
      | mk k' v =>
        by_cases h : k = k' <;> simp [lookupA, h, ih]

@[simp] theorem lookupA_delA {β : Type} (l : List (String × β)) (k k' : String) :
    lookupA (delA l k) k' = if k' = k then none else lookupA l k' := by
  induction l with
  | nil => simp [lookupA, delA]
  | cons p rest ih =>
      cases p with
      | mk k0 v =>
        by_cases hk : k0 = k
        · subst hk
          by_cases h : k' = k0
          · subst h
            simp only [delA, if_pos rfl]
            simpa using ih
          · simp [delA, lookupA, ih, h]
        · by_cases h : k' = k0
          · subst h
            simp [delA, hk, lookupA]
          · simp [delA, hk, lookupA, h, ih]

@[simp] theorem lookupA_setA {β : Type} (l : List (String × β)) (k k' : String) (v : β) :
    lookupA (setA l k v) k' = if k' = k then some v else lookupA l k' := by
  by_cases h : k' = k
  · subst h
    simp [setA, lookupA_append, lookupA]
  · rw [setA, lookupA_append, lookupA_delA]
    simp only [if_neg h]
    cases hl : lookupA l k' <;> simp [lookupA, h]

/-- An accessibility node: an attribute dictionary plus the optional
`children` key (a `none` means the key is absent; `some []` means the key
is present with an empty list, which Python distinguishes). -/
inductive AXNode where
  | mk : Attrs → Option (List AXNode) → AXNode

def AXNode.attrs : AXNode → Attrs
  | .mk a _ => a

def AXNode.children? : AXNode → Option (List AXNode)
  | .mk _ c => c

@[simp] theorem AXNode.attrs_mk (a : Attrs) (c : Option (List AXNode)) :
    (AXNode.mk a c).attrs = a := rfl

@[simp] theorem AXNode.children?_mk (a : Attrs) (c : Option (List AXNode)) :
    (AXNode.mk a c).children? = c := rfl

/-- `node.get(k)` for a scalar-valued key. -/
def getAttr (n : AXNode) (k : String) : Option JVal :=
  lookupA n.attrs k

@[simp] theorem getAttr_mk (a : Attrs) (c : Option (List AXNode)) (k : String) :
    getAttr (AXNode.mk a c) k = lookupA a k := rfl

/-- `node[k] = v` for a scalar-valued key. -/
def setAttr (n : AXNode) (k : String) (v : JVal) : AXNode :=
  .mk (setA n.attrs k v) n.children?

/-- `node.pop(k, None)` / `del node[k]` for a scalar-valued key. -/
def delAttr (n : AXNode) (k : String) : AXNode :=
  .mk (delA n.attrs k) n.children?

/-- `node.pop("children", None)`. -/
def dropChildren (n : AXNode) : AXNode :=
  .mk n.attrs none

/-- `"k" in node` for a scalar-valued key. -/
def hasAttr (n : AXNode) (k : String) : Bool :=
  (getAttr n k).isSome

/-- `len(node)`: number of dictionary keys, counting the `children` key. -/
def nodeLen (n : AXNode) : Nat :=
  n.attrs.length + (if n.children?.isSome then 1 else 0)

@[simp] theorem getAttr_setAttr (n : AXNode) (k k' : String) (v : JVal) :
    getAttr (setAttr n k v) k' = if k' = k then some v else getAttr n k' := by
  simp [getAttr, setAttr]

@[simp] theorem getAttr_delAttr (n : AXNode) (k k' : String) :
    getAttr (delAttr n k) k' = if k' = k then none else getAttr n k' := by
  simp [getAttr, delAttr]

@[simp] theorem getAttr_dropChildren (n : AXNode) (k : String) :
    getAttr (dropChildren n) k = getAttr n k := by
  simp [getAttr, dropChildren]

@[simp] theorem children?_setAttr (n : AXNode) (k : String) (v : JVal) :
    (setAttr n k v).children? = n.children? := rfl

@[simp] theorem children?_delAttr (n : AXNode) (k : String) :
    (delAttr n k).children? = n.children? := rfl

@[simp] theorem children?_dropChildren (n : AXNode) :
    (dropChildren n).children? = none := rfl

mutual

/-- Number of nodes in a tree (the root counts as one). -/
def countTree : AXNode → Nat
  | .mk _ none => 1
  | .mk _ (some l) => 1 + countList l

/-- Number of nodes in a forest. -/
def countList : List AXNode → Nat
  | [] => 0
  | x :: xs => countTree x + countList xs

end

theorem countTree_eq (n : AXNode) :
    countTree n = 1 + (match n.children? with
                       | none => 0
                       | some l => countList l) := by
  cases n with
  | mk a c => cases c <;> simp [countTree, AXNode.children?]

@[simp] theorem countTree_setAttr (n : AXNode) (k : String) (v : JVal) :
    countTree (setAttr n k v) = countTree n := by
  cases n with
  | mk a c => cases c <;> simp [setAttr, countTree, AXNode.children?, AXNode.attrs]

@[simp] theorem countTree_delAttr (n : AXNode) (k : String) :
    countTree (delAttr n k) = countTree n := by
  cases n with
  | mk a c => cases c <;> simp [delAttr, countTree, AXNode.children?, AXNode.attrs]

theorem countTree_dropChildren_le (n : AXNode) :
    countTree (dropChildren n) ≤ countTree n := by
  cases n with
  | mk a c =>
    cases c with
    | none => simp [dropChildren, countTree]
    | some l =>
      simp only [dropChildren, countTree, AXNode.attrs_mk, AXNode.children?_mk]
      omega

theorem countTree_pos (n : AXNode) : 1 ≤ countTree n := by
  cases n with
  | mk a c => cases c <;> simp [countTree]

/-! ## String helpers mirroring the Python/JavaScript primitives

The embedding works on `String.data` with structurally recursive helpers
(the core `String.replace`/`splitOn`/`trim` are compiled by well-founded
recursion, which blocks kernel evaluation of concrete instances; all
`str.replace` calls in this code have one-character patterns, so map and
filter over the character list are exact). -/

/-- Python `s.replace(old, new)` for a one-character pattern. -/
def replaceCh (old new : Char) (s : String) : String :=
  ⟨s.data.map (fun c => if c = old then new else c)⟩

/-- Python `s.replace(old, "")` for a one-character pattern. -/
def removeCh (old : Char) (s : String) : String :=
  ⟨s.data.filter (fun c => c ≠ old)⟩

/-- The characters stripped by Python `str.strip()` (and by `int()` around
a numeral): CPython's `str.isspace()` set — the ASCII whitespace run
U+0009..U+000D, the information separators U+001C..U+001F, the space,
NEL U+0085, NBSP U+00A0, Ogham space U+1680, the Unicode space separators
U+2000..U+200A, the line and paragraph separators U+2028/U+2029, and
U+202F, U+205F, U+3000. -/
def isPySpace (c : Char) : Bool :=
  (0x09 ≤ c.toNat && c.toNat ≤ 0x0D) || (0x1C ≤ c.toNat && c.toNat ≤ 0x1F)
  || c.toNat = 0x20 || c.toNat = 0x85 || c.toNat = 0xA0 || c.toNat = 0x1680
  || (0x2000 ≤ c.toNat && c.toNat ≤ 0x200A)
  || c.toNat = 0x2028 || c.toNat = 0x2029 || c.toNat = 0x202F || c.toNat = 0x205F
  || c.toNat = 0x3000

/-- Python `str.strip()`. -/
def pyStrip (s : String) : String :=
  ⟨((s.data.dropWhile isPySpace).reverse.dropWhile isPySpace).reverse⟩

/-- Python `s.split(sep)` with a one-character separator: keeps empty
fields, and splitting the empty string yields one empty field. -/
def splitCh (sep : Char) : List Char → List (List Char)
  | [] => [[]]
  | c :: cs =>
      match splitCh sep cs with
      | h :: t => if c = sep then [] :: h :: t else (c :: h) :: t
      | [] => if c = sep then [[], []] else [[c]]

def isPrefixList : List Char → List Char → Bool
  | [], _ => true
  | _ :: _, [] => false
  | p :: ps, c :: cs => p = c && isPrefixList ps cs

def isSubList (pat : List Char) : List Char → Bool
  | [] => pat.isEmpty
  | c :: cs => isPrefixList pat (c :: cs) || isSubList pat cs

/-- Python `sub in s` — substring containment. -/
def strContains (s sub : String) : Bool :=
  isSubList sub.data s.data

/-- JavaScript `tagName.toLowerCase()` (tag names are ASCII). -/
def pyToLower (s : String) : String :=
  ⟨s.data.map Char.toLower⟩

/-- `is_space_delimited_mmid` (line 16): full match of `^[\d ]+$` — nonempty,
every character an ASCII digit or a space.  (Python `\d` also matches
non-ASCII digits; those do not occur in injected identifiers.) -/
def isSpaceDelimitedMmid (s : String) : Bool :=
  s.data ≠ [] && s.data.all (fun c => c.isDigit || c = ' ')

/-- `s.split(' ')[-1]` — last field of a split on single spaces; the split
result is never empty, so the default is unreachable. -/
def lastTok (s : String) : String :=
  ⟨(splitCh ' ' s.data).getLastD []⟩

/-- The numeric value of a nonempty all-ASCII-digit run, else `none`. -/
def digitsToNat (cs : List Char) : Option Nat :=
  if cs ≠ [] && cs.all Char.isDigit then
    some (cs.foldl (fun a c => a * 10 + (c.toNat - 48)) 0)
  else none

/-- Python `int(s)` on a decimal string: surrounding whitespace, an optional
sign, then ASCII digits; `none` models the `ValueError` branch.  (Digit-group
underscores and non-ASCII digits accepted by CPython are not modelled; the
candidates produced by the resolver are plain digit runs.) -/
def parsePyInt (s : String) : Option Int :=
  match (pyStrip s).data with
  | [] => none
  | '-' :: ds => (digitsToNat ds).map (fun m => -(m : Int))
  | '+' :: ds => (digitsToNat ds).map (fun m => (m : Int))
  | ds => (digitsToNat ds).map (fun m => (m : Int))

/-- Python truthiness of an optional value (`node.get(k)` used as a test). -/
def isTruthyO : Option JVal → Bool
  | some v => jTruthy v
  | none => false

/-- Python `node.get(k) == True` (`True == 1` also holds). -/
def isPyTrue : Option JVal → Bool
  | some v => pyJEq v (.b true)
  | none => false

/-! ## The DOM side of enrichment -/

/-- A live DOM element as seen by the enrichment JavaScript (lines 96-141):
its tag name, `id` and `type` properties, `innerText`, and the attribute
map read through `getAttribute` (absent attributes yield `null`). -/
structure DomElement where
  tagName : String
  idProp : String
  typeProp : String
  innerText : String
  attrList : List (String × String)

def DomElement.getAttribute (el : DomElement) (k : String) : Option String :=
  lookupA el.attrList k

/-- `attributes` (line 54): the fixed whitelist fetched per element. -/
def attributes : List String :=
  ["name", "aria-label", "placeholder", "mmid", "id", "for", "data-testid"]

/-- `tags_to_ignore` (line 56). -/
def tagsToIgnore : List String :=
  ["head", "style", "script", "link", "meta", "noscript", "template",
   "iframe", "g", "main", "c-wiz", "svg", "path"]

/-- `attributes_to_delete` (line 57). -/
def attributesToDelete : List String :=
  ["level", "multiline", "haspopup", "id", "for"]

/-- `ids_to_ignore` (line 58). -/
def idsToIgnore : List String :=
  ["agentDriveAutoOverlay"]

/-- The JavaScript evaluated per resolved node (lines 96-141), given the
element found by `document.querySelector('[mmid="..."]')`: apply the
id-ignore and tag-ignore rules (returning `null`), then collect `tag`,
`mmid`, `tag_type` for inputs, the truthy whitelist attributes, and
`description` from `innerText` for accessibility leaves. -/
def fetchElementAttributes (el : DomElement) (mmid : Int)
    (shouldFetchInnerText : Bool) : Option Attrs :=
  if idsToIgnore.contains el.idProp then none
  else
    let tag := pyToLower el.tagName
    if tagsToIgnore.contains tag || tag = "option" then none
    else
      let a0 : Attrs := [("tag", .s tag), ("mmid", .i mmid)]
      let a1 := if tag = "input" then setA a0 "tag_type" (.s el.typeProp) else a0
      let a2 := attributes.foldl (fun acc a =>
          match el.getAttribute a with
          | some v => if v ≠ "" then setA acc a (.s v) else acc
          | none => acc) a1
      let a3 := if shouldFetchInnerText && el.innerText ≠ "" then
                  setA a2 "description" (.s el.innerText)
                else a2
      some a3

/-- The page as seen by the two JavaScript round trips of enrichment:
`byMmid` models `document.querySelector('[mmid="..."]')`, and `textLookup`
models the fallback query (lines 75-79) that scans `li`/`span`/`div`
elements for one whose trimmed text content equals the node name and
returns its `mmid` attribute (or `null`). -/
structure DomEnv where
  byMmid : Int → Option DomElement
  textLookup : String → Option String

/-! ## Identifier resolution (lines 66-87) -/

/-- Python `a or b` on optional node values. -/
def pyOrO (a b : Option JVal) : Option JVal :=
  match a with
  | some v => if jTruthy v then some v else b
  | none => b

/-- The resolver portion of `process_node` (lines 66-87): read
`keyshortcuts` or `description`, extract the last space-separated digit
token, fall back to the text-content lookup via the node's `name`,
re-extract, and parse with `int`.  `none` is the path on which
`int(mmid_temp)` raises `ValueError`/`TypeError` and `process_node`
returns without touching the node.  (A truthy non-string candidate would
make `re.fullmatch` raise in Python; snapshots only put strings in these
fields, and the embedding totalises that branch to `none`.)  Resolution
reads only the node's scalar fields, so it takes the attribute dictionary. -/
def resolveMmid (env : DomEnv) (a : Attrs) : Option Int :=
  let k0 := pyOrO (lookupA a "keyshortcuts") (lookupA a "description")
  let mt1 : Option String :=
    match k0 with
    | some (.s v) => if jTruthy (.s v) && isSpaceDelimitedMmid v then some (lastTok v) else none
    | _ => none
  let t1 : Bool := match mt1 with | some v => v ≠ "" | none => false
  let mt2 : Option String :=
    if t1 then mt1
    else
      match lookupA a "name" with
      | some nv =>
          if jTruthy nv then
            match nv with
            | .s nm => env.textLookup nm
            | _ => none
          else mt1
      | none => mt1
  let mt3 : Option String :=
    match mt2 with
    | some v => if v ≠ "" && isSpaceDelimitedMmid v then some (lastTok v) else some v
    | none => none
  match mt3 with
  | some v => parsePyInt v
  | none => none

/-! ## The redundancy-elimination rules (lines 150-191) -/

/-- Line 160: drop `name` when it equals `mmid` and role is not "textbox". -/
def ruleNameEqMmid (n : AXNode) : AXNode :=
  if pyJEqO (getAttr n "name") (getAttr n "mmid")
     ∧ getAttr n "role" ≠ some (.s "textbox")
  then delAttr n "name" else n

/-- Line 163: drop `description` when it duplicates `name` up to newline
normalisation, or its newline-stripped form is contained in `name`. -/
def ruleDescDup (n : AXNode) : AXNode :=
  match getAttr n "name", getAttr n "description" with
  | some nmv, some dv =>
      if pyJEq nmv dv then delAttr n "description"
      else
        match nmv, dv with
        | .s nm, .s d =>
            if nm = replaceCh '\n' ' ' d ∨ strContains nm (removeCh '\n' d)
            then delAttr n "description" else n
        | _, _ => n
  | _, _ => n

/-- Line 166: drop `aria-label` when it is a substring of `name`. -/
def ruleAriaInName (n : AXNode) : AXNode :=
  match getAttr n "name", getAttr n "aria-label" with
  | some (.s nm), some (.s al) =>
      if strContains nm al then delAttr n "aria-label" else n
  | _, _ => n

/-- Line 169: drop `text` when it equals `name`. -/
def ruleTextEqName (n : AXNode) : AXNode :=
  match getAttr n "name", getAttr n "text" with
  | some nv, some tv => if pyJEq nv tv then delAttr n "text" else n
  | _, _ => n

/-- Lines 172-175: a `select` element drops `children`, `role` and
`description`. -/
def ruleSelect (n : AXNode) : AXNode :=
  if getAttr n "tag" = some (.s "select") then
    delAttr (delAttr (dropChildren n) "role") "description"
  else n

/-- Line 177: drop `role` when it equals `tag`. -/
def ruleRoleEqTag (n : AXNode) : AXNode :=
  if pyJEqO (getAttr n "role") (getAttr n "tag") then delAttr n "role" else n

/-- Line 180: drop `aria-label` when truthy and equal to a truthy
`placeholder`. -/
def ruleAriaEqPlaceholder (n : AXNode) : AXNode :=
  match getAttr n "aria-label", getAttr n "placeholder" with
  | some av, some pv =>
      if jTruthy av ∧ jTruthy pv ∧ pyJEq av pv then delAttr n "aria-label" else n
  | _, _ => n

/-- Lines 183-187: a link drops `role` and promotes a truthy `description`
to `text`. -/
def ruleLink (n : AXNode) : AXNode :=
  if getAttr n "role" = some (.s "link") then
    let n1 := delAttr n "role"
    match getAttr n1 "description" with
    | some dv => if jTruthy dv then delAttr (setAttr n1 "text" dv) "description" else n1
    | none => n1
  else n

/-- Lines 189-191: unconditionally pop the `attributes_to_delete` keys. -/
def ruleDeleteAttrs (n : AXNode) : AXNode :=
  attributesToDelete.foldl delAttr n

/-- The post-update rule cascade of `process_node` (lines 160-191), in
source order. -/
def applyRules (n : AXNode) : AXNode :=
  ruleDeleteAttrs (ruleLink (ruleAriaEqPlaceholder (ruleRoleEqTag (ruleSelect
    (ruleTextEqName (ruleAriaInName (ruleDescDup (ruleNameEqMmid n))))))))

/-- `node.update(element_attributes)` (line 157). -/
def updateAttrs (n : AXNode) (ea : Attrs) : AXNode :=
  ea.foldl (fun acc p => setAttr acc p.1 p.2) n

/-- The hint injected into modal dialogs (line 90). -/
def modalHint : String :=
  "This is a modal dialog. Please interact with this dialog and close it to be able to interact with the full page (e.g., by pressing the close button or selecting an option)."

/-- The per-node work of `process_node` (lines 66-193) on a node whose
children have already been processed: resolve the identifier (returning the
node unchanged on failure), inject the modal-dialog hint, then for a truthy
identifier delete `keyshortcuts`, set `mmid`, and either merge the fetched
DOM attributes and run the rule cascade, or mark the node for deletion. -/
def processNodeStep (env : DomEnv) (a : Attrs) (cs' : Option (List AXNode)) : AXNode :=
  let n0 : AXNode := .mk a cs'
  match resolveMmid env a with
  | none => n0
  | some mmid =>
    let n1 := if lookupA a "role" = some (.s "dialog") ∧ isPyTrue (lookupA a "modal")
              then setAttr n0 "important information" (.s modalHint) else n0
    if mmid ≠ 0 then
      let shouldFetchInnerText := cs'.isNone
      let ea : Option Attrs :=
        match env.byMmid mmid with
        | some el => fetchElementAttributes el mmid shouldFetchInnerText
        | none => none
      let n2 := delAttr n1 "keyshortcuts"
      let n3 := setAttr n2 "mmid" (.s (toString mmid))
      match ea with
      | some eattrs => applyRules (updateAttrs n3 eattrs)
      | none => setAttr n3 "marked_for_deletion_by_mm" (.b true)
    else n1

mutual

/-- `process_node` (lines 61-193): process the children bottom-up, then run
the per-node enrichment step. -/
def processNode (env : DomEnv) : AXNode → AXNode
  | .mk attrs0 cs =>
      processNodeStep env attrs0
        (match cs with
         | some l => some (processList env l)
         | none => none)

/-- The `for child in node['children']` loop of `process_node` (lines 62-64). -/
def processList (env : DomEnv) : List AXNode → List AXNode
  | [] => []
  | x :: xs => processNode env x :: processList env xs

end

/-! ## The pruner (lines 222-320) -/

/-- The `processed_name` computation of `__should_prune_node`
(lines 307-315): remove commas, colons and newlines, strip surrounding
whitespace, and blank the result when shorter than 3 characters. -/
def processedName (n : AXNode) : String :=
  match getAttr n "name" with
  | some (.s nm) =>
      let p := pyStrip (removeCh '\n' (removeCh ':' (removeCh ',' nm)))
      if p.data.length < 3 then "" else p
  | _ => ""

/-- `__should_prune_node` (lines 287-320). -/
def shouldPruneNode (n : AXNode) (onlyInputFields : Bool) : Bool :=
  if getAttr n "role" ≠ some (.s "WebArea") ∧ onlyInputFields
     ∧ ¬ (getAttr n "tag" = some (.s "input") ∨ getAttr n "tag" = some (.s "button")
          ∨ getAttr n "tag" = some (.s "textarea") ∨ getAttr n "role" = some (.s "button"))
  then true
  else if getAttr n "role" = some (.s "generic") ∧ n.children?.isNone
          ∧ ¬ (hasAttr n "name" ∧ isTruthyO (getAttr n "name"))
  then true
  else if getAttr n "role" = some (.s "separator") ∨ getAttr n "role" = some (.s "LineBreak")
  then true
  else if nodeLen n = 2 ∧ hasAttr n "name" ∧ hasAttr n "role"
          ∧ ¬ (getAttr n "role" = some (.s "text") ∧ processedName n ≠ "")
  then true
  else false

/-- The disposition decision at the end of `__prune_tree` (line 284):
prune the (already child-processed) node or keep it. -/
def pruneDecide (n' : AXNode) (onlyInputFields : Bool) : Option AXNode :=
  if shouldPruneNode n' onlyInputFields then none else some n'

mutual

/-- `__prune_tree` (lines 222-284): the deletion-marker check (line 251),
then the child-list pass, then the node's own pruning decision. -/
def pruneTree : AXNode → Bool → Option AXNode
  | .mk a c, onlyInputFields =>
    if hasAttr (.mk a c) "marked_for_deletion_by_mm" then none
    else pruneDecide (pruneChildren onlyInputFields a c) onlyInputFields

/-- Lines 254-281: process the `children` value when the key is present,
and remove the key when the processed list came out empty (a node without
the key is returned unchanged). -/
def pruneChildren (onlyInputFields : Bool) (a : Attrs) : Option (List AXNode) → AXNode
  | some cs =>
      let cs' := pruneList onlyInputFields cs
      if cs'.isEmpty then AXNode.mk a none else AXNode.mk a (some cs')
  | none => AXNode.mk a none

/-- The `while i < len(node['children'])` loop (lines 255-277): splice an
unravel-marked child's children in unprocessed (the index arithmetic skips
them), else recursively prune the child, dropping it when pruned away. -/
def pruneList : Bool → List AXNode → List AXNode
  | _, [] => []
  | onlyInputFields, c :: rest =>
      if hasAttr c "marked_for_unravel_children" then
        (match c.children? with
         | some cs => cs
         | none => []) ++ pruneList onlyInputFields rest
      else
        match pruneTree c onlyInputFields with
        | none => pruneList onlyInputFields rest
        | some c' => c' :: pruneList onlyInputFields rest

end

/-- `__fetch_dom_info` (lines 52-199): enrich bottom-up, then prune. -/
def fetchDomInfo (env : DomEnv) (t : AXNode) (onlyInputFields : Bool) : Option AXNode :=
  pruneTree (processNode env t) onlyInputFields

example : pruneTree (.mk [("role", .s "separator")] none) false = none := rfl

/-! ## The live DOM: identifier injection (lines 30-49) and cleanup (lines 202-219) -/

/-- A DOM element's attribute map, as touched by injection and cleanup. -/
abbrev Elem := List (String × String)

/-- `element.getAttribute(k)` (absent attributes are `null`). -/
def getAttrE (el : Elem) (k : String) : Option String :=
  lookupA el k

/-- `element.setAttribute(k, v)`. -/
def setAttrE (el : Elem) (k : String) (v : String) : Elem :=
  setA el k v

/-- `element.removeAttribute(k)`. -/
def removeAttrE (el : Elem) (k : String) : Elem :=
  delA el k

/-- The injection script's per-element body (lines 38-46), with the counter
already pre-incremented to `id`: read the pre-existing `aria-keyshortcuts`,
write `mmid` and `aria-keyshortcuts`, and back a truthy original up under
`orig-aria-keyshortcuts`. -/
def injectElem (el : Elem) (id : Nat) : Elem :=
  let origAria := getAttrE el "aria-keyshortcuts"
  let mmid := toString id
  let el1 := setAttrE (setAttrE el "mmid" mmid) "aria-keyshortcuts" mmid
  match origAria with
  | some s => if s ≠ "" then setAttrE el1 "orig-aria-keyshortcuts" s else el1
  | none => el1

/-- The `allElements.forEach` loop of `__inject_attributes` over
`document.querySelectorAll('*')` in document order, with the running
counter. -/
def injectFrom : Nat → List Elem → List Elem
  | _, [] => []
  | id, el :: rest => injectElem el (id + 1) :: injectFrom (id + 1) rest

/-- `__inject_attributes` (lines 30-49): counter starts at 0 and is
pre-incremented, so identifiers run 1, 2, ... in document order. -/
def injectAttributes (dom : List Elem) : List Elem :=
  injectFrom 0 dom

/-- The cleanup script's per-element body (lines 210-217): remove
`aria-keyshortcuts`, and restore a truthy backup, removing the backup
attribute. -/
def cleanupElem (el : Elem) : Elem :=
  let el1 := removeAttrE el "aria-keyshortcuts"
  match getAttrE el1 "orig-aria-keyshortcuts" with
  | some s =>
      if s ≠ "" then removeAttrE (setAttrE el1 "aria-keyshortcuts" s) "orig-aria-keyshortcuts"
      else el1
  | none => el1

/-- `__cleanup_dom` (lines 202-219): the script runs over
`document.querySelectorAll('*[mmid]')` — every element carrying an `mmid`
attribute; the `mmid` attribute itself is never removed. -/
def cleanupDom (dom : List Elem) : List Elem :=
  dom.map (fun el => if (getAttrE el "mmid").isSome then cleanupElem el else el)

/-! ## `do_get_accessibility_info` (lines 365-398) -/

/-- Which steps of one extraction call raise an exception.  The logging
statements and `__cleanup_dom` itself are not modelled as failure points. -/
structure ExtractionWorld where
  injectRaises : Bool
  snapshotRaises : Bool
  saveRawRaises : Bool
  enrichRaises : Bool
  saveEnrichedRaises : Bool

/-- Outcome of `do_get_accessibility_info` at the caller: an exception
propagated out of the call, or a returned value (`none` is the value
returned by the `except` branch, or a root pruned away). -/
inductive ExtractResult where
  | raised : ExtractResult
  | returned : Option AXNode → ExtractResult

/-- `do_get_accessibility_info` (lines 365-398): `__inject_attributes`, the
accessibility snapshot and the raw JSON dump run outside any handler; then
`__cleanup_dom` runs; then the `try` block runs `__fetch_dom_info` and the
enriched JSON dump and returns the tree, and `except Exception` turns any
exception from the block into `return None`.  The second component records
whether `__cleanup_dom` ran during the call. -/
def doGetAccessibilityInfo (w : ExtractionWorld) (env : DomEnv) (raw : AXNode)
    (onlyInputFields : Bool) : ExtractResult × Bool :=
  if w.injectRaises then (.raised, false)
  else if w.snapshotRaises then (.raised, false)
  else if w.saveRawRaises then (.raised, false)
  else
    if w.enrichRaises then (.returned none, true)
    else if w.saveEnrichedRaises then (.returned none, true)
    else (.returned (fetchDomInfo env raw onlyInputFields), true)

/-! ## Facts about injection and cleanup -/

theorem getAttrE_injectElem_mmid (el : Elem) (id : Nat) :
    getAttrE (injectElem el id) "mmid" = some (toString id) := by
  unfold injectElem
  cases h : getAttrE el "aria-keyshortcuts" with
  | none => simp [getAttrE, setAttrE]
  | some s =>
      by_cases hs : s = "" <;> simp [getAttrE, setAttrE, hs]

theorem injectFrom_mmids (dom : List Elem) : ∀ k : Nat,
    (injectFrom k dom).map (fun el => getAttrE el "mmid")
      = (List.range dom.length).map (fun i => some (toString (k + i + 1))) := by
  induction dom with
  | nil => intro k; simp [injectFrom]
  | cons el rest ih =>
      intro k
      simp only [injectFrom, List.map_cons, getAttrE_injectElem_mmid,
        List.length_cons, List.range_succ_eq_map, List.map_map, ih (k + 1)]
      have htail : List.map (fun i => some (toString (k + 1 + i + 1))) (List.range rest.length)
          = List.map ((fun i => some (toString (k + i + 1))) ∘ Nat.succ) (List.range rest.length) := by
        apply List.map_congr_left
        intro i _
        simp only [Function.comp]
        congr 2
        omega
      rw [htail]

/-- C1: after the Identifier Injector runs, the elements of the page, in
document traversal order, carry the identifiers `1, 2, ..., N` — every
element has one, with no gaps and no duplicates within the call. -/
theorem injector_assigns_identifiers_one_to_n (dom : List Elem) :
    (injectAttributes dom).map (fun el => getAttrE el "mmid")
      = (List.range dom.length).map (fun i => some (toString (i + 1))) := by
  have h := injectFrom_mmids dom 0
  simpa using h

theorem cleanupElem_injectElem (el : Elem) (id : Nat)
    (horig : getAttrE el "orig-aria-keyshortcuts" = none) :
    getAttrE (cleanupElem (injectElem el id)) "aria-keyshortcuts"
        = (match getAttrE el "aria-keyshortcuts" with
           | some s => if s = "" then none else some s
           | none => none)
    ∧ getAttrE (cleanupElem (injectElem el id)) "orig-aria-keyshortcuts" = none
    ∧ getAttrE (cleanupElem (injectElem el id)) "mmid" = some (toString id) := by
  unfold injectElem cleanupElem
  cases h : getAttrE el "aria-keyshortcuts" with
  | none =>
      simp only [getAttrE, setAttrE, removeAttrE] at horig ⊢
      simp [horig]
  | some s =>
      by_cases hs : s = ""
      · subst hs
        simp only [getAttrE, setAttrE, removeAttrE] at horig ⊢
        simp [horig]
      · simp only [getAttrE, setAttrE, removeAttrE, hs] at horig ⊢
        simp [horig, hs]

theorem cleanupDom_injectFrom (dom : List Elem)
    (horig : ∀ el ∈ dom, getAttrE el "orig-aria-keyshortcuts" = none) : ∀ k : Nat,
    (cleanupDom (injectFrom k dom)).map (fun el => getAttrE el "aria-keyshortcuts")
       = dom.map (fun el => match getAttrE el "aria-keyshortcuts" with
                            | some s => if s = "" then none else some s
                            | none => none)
    ∧ (∀ el' ∈ cleanupDom (injectFrom k dom), getAttrE el' "orig-aria-keyshortcuts" = none)
    ∧ (cleanupDom (injectFrom k dom)).map (fun el => getAttrE el "mmid")
       = (List.range dom.length).map (fun i => some (toString (k + i + 1))) := by
  induction dom with
  | nil => intro k; simp [injectFrom, cleanupDom]
  | cons el rest ih =>
      intro k
      have hel := horig el (by simp)
      have hrest : ∀ e ∈ rest, getAttrE e "orig-aria-keyshortcuts" = none :=
        fun e he => horig e (by simp [he])
      have hmm : (getAttrE (injectElem el (k + 1)) "mmid").isSome := by
        rw [getAttrE_injectElem_mmid]; rfl
      have hce := cleanupElem_injectElem el (k + 1) hel
      have ihk := ih hrest (k + 1)
      refine ⟨?_, ?_, ?_⟩
      · simp only [injectFrom, cleanupDom, List.map_cons, hmm, if_pos]
        rw [hce.1]
        simpa [cleanupDom] using ihk.1
      · intro el' hel'
        simp only [injectFrom, cleanupDom, List.map_cons, hmm, if_pos,
          List.mem_cons] at hel'
        rcases hel' with h | h
        · rw [h]; exact hce.2.1
        · exact ihk.2.1 el' (by simpa [cleanupDom] using h)
      · simp only [injectFrom, cleanupDom, List.map_cons, hmm, if_pos,
          List.length_cons, List.range_succ_eq_map, List.map_map]
        rw [hce.2.2]
        have htail : List.map ((fun e => getAttrE e "mmid")
              ∘ (fun e => if (getAttrE e "mmid").isSome then cleanupElem e else e))
              (injectFrom (k + 1) rest)
            = List.map ((fun i => some (toString (k + i + 1))) ∘ Nat.succ) (List.range rest.length) := by
          rw [← List.map_map]
          have := ihk.2.2
          simp only [cleanupDom] at this
          rw [this]
          apply List.map_congr_left
          intro i _
          simp only [Function.comp]
          congr 2
          omega
        rw [htail]

/-- A page on which both enrichment queries find nothing. -/
def env0 : DomEnv := ⟨fun _ => none, fun _ => none⟩

/-- C3 counterexample: on a page with one attribute-less element, after
injection and cleanup the element still carries the injector-written
`mmid` attribute — refuting the claim that no attribute written by the
Injector remains on any element. -/
theorem cleanup_leaves_injected_mmid_attribute :
    cleanupDom (injectAttributes [[]]) = [[("mmid", "1")]] := rfl

/-- C3 (amended): after cleanup, the accessibility-shortcut attribute is
bit-identical to its pre-injection value for elements that originally had
a nonempty value and absent otherwise, and the backup attribute is gone —
but the `mmid` attribute written by the Injector remains on every element
(with its 1..N value).  Stated for pages whose elements do not already
carry the backup attribute. -/
theorem cleanup_restores_aria_but_keeps_mmid (dom : List Elem)
    (horig : ∀ el ∈ dom, getAttrE el "orig-aria-keyshortcuts" = none) :
    (cleanupDom (injectAttributes dom)).map (fun el => getAttrE el "aria-keyshortcuts")
       = dom.map (fun el => match getAttrE el "aria-keyshortcuts" with
                            | some s => if s = "" then none else some s
                            | none => none)
    ∧ (∀ el' ∈ cleanupDom (injectAttributes dom), getAttrE el' "orig-aria-keyshortcuts" = none)
    ∧ (cleanupDom (injectAttributes dom)).map (fun el => getAttrE el "mmid")
       = (List.range dom.length).map (fun i => some (toString (i + 1))) := by
  have h := cleanupDom_injectFrom dom horig 0
  simp only [injectAttributes]
  refine ⟨h.1, h.2.1, ?_⟩
  rw [h.2.2]
  apply List.map_congr_left
  intro i _
  congr 2
  omega

/-- Witness for the amended C3 on a concrete two-element page. -/
theorem cleanup_restores_aria_but_keeps_mmid_witness :
    (cleanupDom (injectAttributes [[("aria-keyshortcuts", "save me")], []])).map
        (fun el => getAttrE el "aria-keyshortcuts") = [some "save me", none]
    ∧ (cleanupDom (injectAttributes [[("aria-keyshortcuts", "save me")], []])).map
        (fun el => getAttrE el "mmid") = [some "1", some "2"] := by
  have h := cleanup_restores_aria_but_keeps_mmid
      [[("aria-keyshortcuts", "save me")], []] (by decide)
  exact ⟨by rw [h.1]; rfl, by rw [h.2.2]; rfl⟩

/-- C4 counterexample: a run where the accessibility snapshot raises — the
exception propagates to the caller and `__cleanup_dom` never runs,
refuting the claim that cleanup executes on every error path. -/
theorem snapshot_exception_skips_cleanup :
    doGetAccessibilityInfo ⟨false, true, false, false, false⟩ env0 (.mk [] none) false
      = (.raised, false) := rfl

/-- C4 (amended): `__cleanup_dom` runs before enrichment, so it is
guaranteed to have run whenever injection, the snapshot and the raw dump
succeeded — in particular on every run where enrichment raises; an
exception in injection, the snapshot or the raw dump propagates without
cleanup running. -/
theorem cleanup_runs_when_preenrichment_succeeds (w : ExtractionWorld) (env : DomEnv)
    (raw : AXNode) (f : Bool)
    (hi : w.injectRaises = false) (hs : w.snapshotRaises = false)
    (hr : w.saveRawRaises = false) :
    (doGetAccessibilityInfo w env raw f).2 = true := by
  unfold doGetAccessibilityInfo
  rw [hi, hs, hr]
  simp only [Bool.false_eq_true, if_false]
  cases w.enrichRaises <;> cases w.saveEnrichedRaises <;> rfl

/-- Witness for the amended C4: enrichment raises, cleanup has run. -/
theorem cleanup_runs_when_preenrichment_succeeds_witness :
    (doGetAccessibilityInfo ⟨false, false, false, true, false⟩ env0 (.mk [] none) false).2
      = true :=
  cleanup_runs_when_preenrichment_succeeds _ _ _ _ rfl rfl rfl

/-- C5: once injection, the snapshot and the raw dump have succeeded, the
call never propagates an exception; if the enrichment traversal (or the
enriched dump) raises, the call returns `None`; and any tree it does
return is exactly the complete enriched-and-pruned tree — never a partial
one. -/
theorem enrichment_exception_caught_returns_none (w : ExtractionWorld) (env : DomEnv)
    (raw : AXNode) (f : Bool)
    (hi : w.injectRaises = false) (hs : w.snapshotRaises = false)
    (hr : w.saveRawRaises = false) :
    ((doGetAccessibilityInfo w env raw f).1 ≠ .raised)
    ∧ (w.enrichRaises = true → (doGetAccessibilityInfo w env raw f).1 = .returned none)
    ∧ (∀ t : AXNode, (doGetAccessibilityInfo w env raw f).1 = .returned (some t) →
        fetchDomInfo env raw f = some t) := by
  have hgoal : doGetAccessibilityInfo w env raw f
      = (if w.enrichRaises then (.returned none, true)
         else if w.saveEnrichedRaises then (.returned none, true)
         else (.returned (fetchDomInfo env raw f), true)) := by
    unfold doGetAccessibilityInfo
    rw [hi, hs, hr]
    simp
  refine ⟨?_, ?_, ?_⟩
  · rw [hgoal]
    cases w.enrichRaises <;> cases w.saveEnrichedRaises <;> simp
  · intro he
    rw [hgoal, he]
    simp
  · intro t ht
    rw [hgoal] at ht
    cases he : w.enrichRaises
    · cases hse : w.saveEnrichedRaises
      · rw [he, hse] at ht
        simp only [Bool.false_eq_true, if_false] at ht
        simp only [ExtractResult.returned.injEq] at ht
        exact ht
      · rw [he, hse] at ht
        simp at ht
    · rw [he] at ht
      simp at ht

/-- Witness for C5: a run whose enrichment raises returns `None`. -/
theorem enrichment_exception_caught_returns_none_witness :
    (doGetAccessibilityInfo ⟨false, false, false, true, false⟩ env0 (.mk [] none) false).1
      = .returned none :=
  (enrichment_exception_caught_returns_none ⟨false, false, false, true, false⟩ env0
    (.mk [] none) false rfl rfl rfl).2.1 rfl

/-! ## Which keys each enrichment rule can touch -/

theorem getAttr_ruleNameEqMmid (n : AXNode) (k : String) (h : k ≠ "name") :
    getAttr (ruleNameEqMmid n) k = getAttr n k := by
  unfold ruleNameEqMmid
  split <;> simp [h]

theorem getAttr_ruleDescDup (n : AXNode) (k : String) (h : k ≠ "description") :
    getAttr (ruleDescDup n) k = getAttr n k := by
  unfold ruleDescDup
  repeat' split
  all_goals simp [h]

theorem getAttr_ruleAriaInName (n : AXNode) (k : String) (h : k ≠ "aria-label") :
    getAttr (ruleAriaInName n) k = getAttr n k := by
  unfold ruleAriaInName
  repeat' split
  all_goals simp [h]

theorem getAttr_ruleTextEqName (n : AXNode) (k : String) (h : k ≠ "text") :
    getAttr (ruleTextEqName n) k = getAttr n k := by
  unfold ruleTextEqName
  repeat' split
  all_goals simp [h]

theorem getAttr_ruleSelect (n : AXNode) (k : String) (h1 : k ≠ "role")
    (h2 : k ≠ "description") :
    getAttr (ruleSelect n) k = getAttr n k := by
  unfold ruleSelect
  split <;> simp [h1, h2]

theorem getAttr_ruleRoleEqTag (n : AXNode) (k : String) (h : k ≠ "role") :
    getAttr (ruleRoleEqTag n) k = getAttr n k := by
  unfold ruleRoleEqTag
  split <;> simp [h]

theorem getAttr_ruleAriaEqPlaceholder (n : AXNode) (k : String) (h : k ≠ "aria-label") :
    getAttr (ruleAriaEqPlaceholder n) k = getAttr n k := by
  unfold ruleAriaEqPlaceholder
  repeat' split
  all_goals simp [h]

theorem getAttr_ruleLink (n : AXNode) (k : String) (h1 : k ≠ "role")
    (h2 : k ≠ "text") (h3 : k ≠ "description") :
    getAttr (ruleLink n) k = getAttr n k := by
  unfold ruleLink
  split
  · cases hd : getAttr (delAttr n "role") "description" with
    | none => simp [hd, h1]
    | some dv => by_cases ht : jTruthy dv <;> simp [hd, ht, h1, h2, h3]
  · rfl

theorem getAttr_ruleDeleteAttrs (n : AXNode) (k : String) (h1 : k ≠ "level")
    (h2 : k ≠ "multiline") (h3 : k ≠ "haspopup") (h4 : k ≠ "id") (h5 : k ≠ "for") :
    getAttr (ruleDeleteAttrs n) k = getAttr n k := by
  simp [ruleDeleteAttrs, attributesToDelete, h1, h2, h3, h4, h5]

/-- The rule cascade touches only its ten known keys. -/
theorem getAttr_applyRules (n : AXNode) (k : String)
    (h1 : k ≠ "name") (h2 : k ≠ "description") (h3 : k ≠ "aria-label")
    (h4 : k ≠ "text") (h5 : k ≠ "role") (h6 : k ≠ "level") (h7 : k ≠ "multiline")
    (h8 : k ≠ "haspopup") (h9 : k ≠ "id") (h10 : k ≠ "for") :
    getAttr (applyRules n) k = getAttr n k := by
  unfold applyRules
  rw [getAttr_ruleDeleteAttrs _ _ h6 h7 h8 h9 h10,
      getAttr_ruleLink _ _ h5 h4 h2, getAttr_ruleAriaEqPlaceholder _ _ h3,
      getAttr_ruleRoleEqTag _ _ h5, getAttr_ruleSelect _ _ h5 h2,
      getAttr_ruleTextEqName _ _ h4, getAttr_ruleAriaInName _ _ h3,
      getAttr_ruleDescDup _ _ h2, getAttr_ruleNameEqMmid _ _ h1]

theorem getAttr_updateAttrs_notin (ea : Attrs) (n : AXNode) (k : String)
    (h : lookupA ea k = none) : getAttr (updateAttrs n ea) k = getAttr n k := by
  induction ea generalizing n with
  | nil => rfl
  | cons p rest ih =>
      cases p with
      | mk k0 v =>
        have hk : ¬ (k = k0) := by
          intro hkk
          subst hkk
          simp [lookupA] at h
        have hrest : lookupA rest k = none := by
          simpa [lookupA, hk] using h
        simp only [updateAttrs, List.foldl] at ih ⊢
        rw [ih (setAttr n k0 v) hrest]
        simp [hk]

theorem lookupA_fetch_foldl (el : DomElement) (l : List String) (a : Attrs) (k : String)
    (hk : ¬ k ∈ l) :
    lookupA (l.foldl (fun acc x => match el.getAttribute x with
        | some v => if v ≠ "" then setA acc x (.s v) else acc
        | none => acc) a) k = lookupA a k := by
  induction l generalizing a with
  | nil => rfl
  | cons x xs ih =>
      have hx : ¬ (k = x) := fun hkk => hk (by simp [hkk])
      have hxs : ¬ k ∈ xs := fun hm => hk (by simp [hm])
      simp only [List.foldl]
      rw [ih _ hxs]
      cases hg : el.getAttribute x with
      | none => rfl
      | some v => by_cases hv : v = "" <;> simp [hv, hx]

/-- The dictionary built by the fetch JavaScript binds only its ten known
keys. -/
theorem fetchElementAttributes_lookup_none (el : DomElement) (m : Int)
    (ft : Bool) (ea : Attrs) (k : String)
    (h : fetchElementAttributes el m ft = some ea)
    (h1 : k ≠ "tag") (h2 : k ≠ "mmid") (h3 : k ≠ "tag_type") (h4 : k ≠ "description")
    (h5 : ¬ k ∈ attributes) :
    lookupA ea k = none := by
  simp only [fetchElementAttributes] at h
  split at h
  · exact absurd h (by simp)
  · split at h
    · exact absurd h (by simp)
    · rw [Option.some.injEq] at h
      rw [← h]
      split
      · rw [lookupA_setA]
        rw [if_neg h4]
        rw [lookupA_fetch_foldl el attributes _ k h5]
        split <;> simp [lookupA, h1, h2, h3]
      · rw [lookupA_fetch_foldl el attributes _ k h5]
        split <;> simp [lookupA, h1, h2, h3]

/-- C2 (amended): on identifier-resolution failure, `process_node` aborts
enrichment for the node without raising and leaves the node unchanged
apart from its already-processed children — in particular it sets no
deletion marker; such a node is removed only if an ordinary pruning rule
applies to it. -/
theorem processNode_resolution_failure (env : DomEnv) (a : Attrs)
    (cs : Option (List AXNode)) (h : resolveMmid env a = none) :
    processNode env (.mk a cs)
      = .mk a (match cs with
               | some l => some (processList env l)
               | none => none) := by
  cases cs <;> simp [processNode, processNodeStep, h]

/-- A childless node whose identifier resolution fails (pattern-less
`keyshortcuts`, text lookup finds nothing) but which carries a third field
besides `name` and `role`. -/
def unresolvedNode : AXNode :=
  .mk [("role", .s "text"), ("name", .s "Hello world!"), ("keyshortcuts", .s "abc")] none

/-- C2 counterexample: the resolution-failed node is not marked for
deletion and survives pruning into the output tree unenriched — refuting
the claim that such nodes are removed by the pruner's deletion rule for
nodes lacking fetched attributes. -/
theorem unresolved_node_survives_pruning :
    resolveMmid env0 unresolvedNode.attrs = none
    ∧ hasAttr (processNode env0 unresolvedNode) "marked_for_deletion_by_mm" = false
    ∧ fetchDomInfo env0 unresolvedNode false = some unresolvedNode :=
  ⟨rfl, rfl, rfl⟩

/-- Witness for the amended C2 at the concrete unresolved node. -/
theorem processNode_resolution_failure_witness :
    processNode env0 (.mk [("role", .s "text"), ("name", .s "Hello world!"),
        ("keyshortcuts", .s "abc")] none)
      = .mk [("role", .s "text"), ("name", .s "Hello world!"),
        ("keyshortcuts", .s "abc")] none :=
  processNode_resolution_failure env0 _ none rfl

/-- A modal dialog node with no resolvable identifier. -/
def modalDialogNode : AXNode := .mk [("role", .s "dialog"), ("modal", .b true)] none

/-- C6 counterexample: a modal dialog whose identifier resolution fails
does not receive the explanatory hint — `process_node` returns before the
hint injection — refuting "regardless of whether identifier resolution
succeeds or fails". -/
theorem modal_hint_missing_on_resolution_failure :
    getAttr modalDialogNode "role" = some (.s "dialog")
    ∧ isPyTrue (getAttr modalDialogNode "modal") = true
    ∧ resolveMmid env0 modalDialogNode.attrs = none
    ∧ getAttr (processNode env0 modalDialogNode) "important information" = none :=
  ⟨rfl, rfl, rfl, rfl⟩

/-- C6 (amended): the modal-dialog hint is injected into a dialog node with
the modal flag exactly when identifier resolution succeeds for it — the
injection happens after the `int` parse and regardless of the later DOM
fetch's outcome. -/
theorem modal_hint_injected_when_resolved (env : DomEnv) (a : Attrs)
    (cs : Option (List AXNode)) (m : Int)
    (hres : resolveMmid env a = some m)
    (hrole : lookupA a "role" = some (.s "dialog"))
    (hmodal : isPyTrue (lookupA a "modal") = true) :
    getAttr (processNode env (.mk a cs)) "important information"
      = some (.s modalHint) := by
  have step : ∀ cs' : Option (List AXNode),
      getAttr (processNodeStep env a cs') "important information" = some (.s modalHint) := by
    intro cs'
    unfold processNodeStep
    rw [hres]
    simp only [hrole, hmodal, and_self, if_true, Option.some.injEq, JVal.s.injEq]
    by_cases hm : m = 0
    · simp [hm]
    · rw [if_pos hm]
      cases hb : env.byMmid m with
      | none => simp [hb]
      | some el =>
          simp only [hb]
          cases hfe : fetchElementAttributes el m cs'.isNone with
          | none => simp [hfe]
          | some eattrs =>
              simp only [hfe]
              rw [getAttr_applyRules _ _ (by decide) (by decide) (by decide) (by decide)
                (by decide) (by decide) (by decide) (by decide) (by decide) (by decide)]
              rw [getAttr_updateAttrs_notin _ _ _
                (fetchElementAttributes_lookup_none el m cs'.isNone eattrs _ hfe
                  (by decide) (by decide) (by decide) (by decide) (by decide))]
              simp
  cases cs <;> simp only [processNode] <;> exact step _

/-- Witness for the amended C6: a resolvable modal dialog gets the hint. -/
theorem modal_hint_injected_when_resolved_witness :
    getAttr (processNode env0 (.mk [("role", .s "dialog"), ("modal", .b true),
        ("keyshortcuts", .s "12")] none)) "important information"
      = some (.s modalHint) :=
  modal_hint_injected_when_resolved env0 _ none 12 rfl rfl rfl

/-- C8 counterexample: with `only_input_fields = True`, the pruner deletes
even a node `{name: "abc", role: "text"}` through the input-only rule —
refuting the claim's unqualified "keeps it when that processed name has
length at least 3". -/
theorem text_node_pruned_in_input_only_mode :
    pruneTree (.mk [("name", .s "abc"), ("role", .s "text")] none) true = none := rfl

/-- C8 (amended): for a node whose only fields are `name` and `role` with
role "text": with `only_input_fields = False` the pruner deletes it exactly
when the name — after removing commas, colons and newlines and stripping
surrounding whitespace — has length less than 3, and keeps it otherwise;
with `only_input_fields = True` such a node is always deleted by the
input-only rule. -/
theorem text_node_pruning_by_processed_name (nm : String) :
    (pruneTree (.mk [("name", .s nm), ("role", .s "text")] none) false
      = if (pyStrip (removeCh '\n' (removeCh ':' (removeCh ',' nm)))).data.length < 3
        then none
        else some (.mk [("name", .s nm), ("role", .s "text")] none))
    ∧ pruneTree (.mk [("name", .s nm), ("role", .s "text")] none) true = none := by
  constructor
  · by_cases hp : (pyStrip (removeCh '\n' (removeCh ':' (removeCh ',' nm)))).data.length < 3
    · rw [if_pos hp]
      have hp' : (pyStrip (removeCh '\n' (removeCh ':' (removeCh ',' nm)))).length < 3 := hp
      simp [pruneTree, pruneChildren, pruneDecide, hasAttr, getAttr, lookupA,
        shouldPruneNode, nodeLen, processedName, hp', isTruthyO]
    · rw [if_neg hp]
      have hp' : ¬ (pyStrip (removeCh '\n' (removeCh ':' (removeCh ',' nm)))).length < 3 := hp
      have hne : pyStrip (removeCh '\n' (removeCh ':' (removeCh ',' nm))) ≠ "" := by
        intro hq
        rw [hq] at hp
        simp at hp
      simp [pruneTree, pruneChildren, pruneDecide, hasAttr, getAttr, lookupA,
        shouldPruneNode, nodeLen, processedName, hp', hne, isTruthyO]
  · simp [pruneTree, pruneChildren, pruneDecide, hasAttr, getAttr, lookupA,
      shouldPruneNode, nodeLen, isTruthyO]

theorem countList_append (xs ys : List AXNode) :
    countList (xs ++ ys) = countList xs + countList ys := by
  induction xs with
  | nil => simp [countList]
  | cons x xs ih => simp [countList, ih]; omega

theorem children?_updateAttrs (ea : Attrs) (n : AXNode) :
    (updateAttrs n ea).children? = n.children? := by
  induction ea generalizing n with
  | nil => rfl
  | cons p rest ih =>
      simp only [updateAttrs, List.foldl] at ih ⊢
      rw [ih (setAttr n p.1 p.2)]
      simp

theorem countTree_updateAttrs (ea : Attrs) (n : AXNode) :
    countTree (updateAttrs n ea) = countTree n := by
  rw [countTree_eq, countTree_eq, children?_updateAttrs]

theorem countTree_ruleNameEqMmid (n : AXNode) :
    countTree (ruleNameEqMmid n) = countTree n := by
  unfold ruleNameEqMmid; split <;> simp

theorem countTree_ruleDescDup (n : AXNode) :
    countTree (ruleDescDup n) = countTree n := by
  unfold ruleDescDup; repeat' split
  all_goals simp

theorem countTree_ruleAriaInName (n : AXNode) :
    countTree (ruleAriaInName n) = countTree n := by
  unfold ruleAriaInName; repeat' split
  all_goals simp

theorem countTree_ruleTextEqName (n : AXNode) :
    countTree (ruleTextEqName n) = countTree n := by
  unfold ruleTextEqName; repeat' split
  all_goals simp

theorem countTree_ruleSelect_le (n : AXNode) :
    countTree (ruleSelect n) ≤ countTree n := by
  unfold ruleSelect
  split
  · simp only [countTree_delAttr]
    exact countTree_dropChildren_le n
  · exact le_refl _

theorem countTree_ruleRoleEqTag (n : AXNode) :
    countTree (ruleRoleEqTag n) = countTree n := by
  unfold ruleRoleEqTag; split <;> simp

theorem countTree_ruleAriaEqPlaceholder (n : AXNode) :
    countTree (ruleAriaEqPlaceholder n) = countTree n := by
  unfold ruleAriaEqPlaceholder; repeat' split
  all_goals simp

theorem countTree_ruleLink (n : AXNode) :
    countTree (ruleLink n) = countTree n := by
  unfold ruleLink
  split
  · cases hd : getAttr (delAttr n "role") "description" with
    | none => simp [hd]
    | some dv => by_cases ht : jTruthy dv <;> simp [hd, ht]
  · rfl

theorem countTree_ruleDeleteAttrs (n : AXNode) :
    countTree (ruleDeleteAttrs n) = countTree n := by
  simp [ruleDeleteAttrs, attributesToDelete]

theorem countTree_applyRules_le (n : AXNode) :
    countTree (applyRules n) ≤ countTree n := by
  unfold applyRules
  rw [countTree_ruleDeleteAttrs, countTree_ruleLink, countTree_ruleAriaEqPlaceholder,
    countTree_ruleRoleEqTag]
  refine le_trans (countTree_ruleSelect_le _) ?_
  rw [countTree_ruleTextEqName, countTree_ruleAriaInName, countTree_ruleDescDup,
    countTree_ruleNameEqMmid]

theorem countTree_processNodeStep_le (env : DomEnv) (a : Attrs) (cs' : Option (List AXNode)) :
    countTree (processNodeStep env a cs') ≤ countTree (.mk a cs') := by
  unfold processNodeStep
  cases hres : resolveMmid env a with
  | none => exact le_refl _
  | some m =>
      simp only []
      by_cases hm : m ≠ 0
      · rw [if_pos hm]
        cases hb : env.byMmid m with
        | none =>
            simp only [hb]
            simp only [countTree_setAttr, countTree_delAttr]
            split <;> simp
        | some el =>
            simp only [hb]
            cases hfe : fetchElementAttributes el m cs'.isNone with
            | none =>
                simp only [hfe]
                simp only [countTree_setAttr, countTree_delAttr]
                split <;> simp
            | some eattrs =>
                simp only [hfe]
                refine le_trans (countTree_applyRules_le _) ?_
                rw [countTree_updateAttrs]
                simp only [countTree_setAttr, countTree_delAttr]
                split <;> simp
      · rw [if_neg hm]
        split <;> simp

mutual

theorem countTree_processNode_le (env : DomEnv) : ∀ n : AXNode,
    countTree (processNode env n) ≤ countTree n
  | .mk a none => by
      simp only [processNode]
      exact countTree_processNodeStep_le env a none
  | .mk a (some l) => by
      simp only [processNode]
      refine le_trans (countTree_processNodeStep_le env a (some (processList env l))) ?_
      simp only [countTree]
      have h := countList_processList_le env l
      omega

theorem countList_processList_le (env : DomEnv) : ∀ l : List AXNode,
    countList (processList env l) ≤ countList l
  | [] => le_refl _
  | x :: xs => by
      simp only [processList, countList]
      have h1 := countTree_processNode_le env x
      have h2 := countList_processList_le env xs
      omega

end

/-- Node count of an optional tree (`None` counts zero). -/
def countOpt : Option AXNode → Nat
  | none => 0
  | some m => countTree m

theorem countOpt_pruneDecide_le (n' : AXNode) (f : Bool) :
    countOpt (pruneDecide n' f) ≤ countTree n' := by
  unfold pruneDecide
  split <;> simp [countOpt]

mutual

theorem countOpt_pruneTree_le : ∀ (n : AXNode) (f : Bool),
    countOpt (pruneTree n f) ≤ countTree n
  | .mk a c, f => by
      simp only [pruneTree]
      split
      · simp [countOpt]
      · exact le_trans (countOpt_pruneDecide_le _ f) (countTree_pruneChildren_le f a c)
termination_by n f => sizeOf n

theorem countTree_pruneChildren_le : ∀ (f : Bool) (a : Attrs) (c : Option (List AXNode)),
    countTree (pruneChildren f a c) ≤ countTree (.mk a c)
  | f, a, none => by simp [pruneChildren, countTree]
  | f, a, some cs => by
      have hcs := countList_pruneList_le f cs
      simp only [pruneChildren]
      by_cases he : (pruneList f cs).isEmpty
      · rw [if_pos he]
        simp only [countTree]
        omega
      · rw [if_neg he]
        simp only [countTree]
        omega
termination_by f a c => sizeOf c

theorem countList_pruneList_le : ∀ (f : Bool) (l : List AXNode),
    countList (pruneList f l) ≤ countList l
  | _, [] => le_refl _
  | f, c :: rest => by
      simp only [pruneList]
      have hrest := countList_pruneList_le f rest
      split
      · cases hc : c.children? with
        | none =>
            simp only [hc, countList_append, countList]
            have := countTree_pos c
            omega
        | some ccs =>
            simp only [hc, countList_append, countList]
            have hce := countTree_eq c
            rw [hc] at hce
            simp only [] at hce
            omega
      · cases hpt : pruneTree c f with
        | none =>
            simp only [hpt, countList]
            have := countTree_pos c
            omega
        | some c' =>
            simp only [hpt, countList]
            have hcle := countOpt_pruneTree_le c f
            rw [hpt] at hcle
            simp only [countOpt] at hcle
            omega
termination_by f l => sizeOf l

end

/-- C9: enrichment and pruning never add nodes — the output tree's node
count is at most the raw snapshot's, for both pruning modes. -/
theorem enriched_tree_count_le_snapshot (env : DomEnv) (t : AXNode) (f : Bool) :
    countOpt (fetchDomInfo env t f) ≤ countTree t := by
  unfold fetchDomInfo
  refine le_trans (countOpt_pruneTree_le (processNode env t) f) ?_
  exact countTree_processNode_le env t

mutual

/-- Every node of the tree satisfies `p`. -/
def allTree (p : AXNode → Bool) : AXNode → Bool
  | .mk a none => p (.mk a none)
  | .mk a (some l) => p (.mk a (some l)) && allList p l

/-- Every node of the forest satisfies `p`. -/
def allList (p : AXNode → Bool) : List AXNode → Bool
  | [] => true
  | x :: xs => allTree p x && allList p xs

end

theorem allTree_iff (p : AXNode → Bool) (n : AXNode) :
    allTree p n = (p n && (match n.children? with
                           | some l => allList p l
                           | none => true)) := by
  cases n with
  | mk a c => cases c <;> simp [allTree]

theorem children?_ruleNameEqMmid (n : AXNode) :
    (ruleNameEqMmid n).children? = n.children? := by
  unfold ruleNameEqMmid; split <;> simp

theorem children?_ruleDescDup (n : AXNode) :
    (ruleDescDup n).children? = n.children? := by
  unfold ruleDescDup; repeat' split
  all_goals simp

theorem children?_ruleAriaInName (n : AXNode) :
    (ruleAriaInName n).children? = n.children? := by
  unfold ruleAriaInName; repeat' split
  all_goals simp

theorem children?_ruleTextEqName (n : AXNode) :
    (ruleTextEqName n).children? = n.children? := by
  unfold ruleTextEqName; repeat' split
  all_goals simp

theorem children?_ruleSelect (n : AXNode) :
    (ruleSelect n).children? = n.children? ∨ (ruleSelect n).children? = none := by
  unfold ruleSelect
  split
  · right; simp
  · left; rfl

theorem children?_ruleRoleEqTag (n : AXNode) :
    (ruleRoleEqTag n).children? = n.children? := by
  unfold ruleRoleEqTag; split <;> simp

theorem children?_ruleAriaEqPlaceholder (n : AXNode) :
    (ruleAriaEqPlaceholder n).children? = n.children? := by
  unfold ruleAriaEqPlaceholder; repeat' split
  all_goals simp

theorem children?_ruleLink (n : AXNode) :
    (ruleLink n).children? = n.children? := by
  unfold ruleLink
  split
  · cases hd : getAttr (delAttr n "role") "description" with
    | none => simp [hd]
    | some dv => by_cases ht : jTruthy dv <;> simp [hd, ht]
  · rfl

theorem children?_ruleDeleteAttrs (n : AXNode) :
    (ruleDeleteAttrs n).children? = n.children? := by
  simp [ruleDeleteAttrs, attributesToDelete]

theorem children?_applyRules (n : AXNode) :
    (applyRules n).children? = n.children? ∨ (applyRules n).children? = none := by
  unfold applyRules
  rw [children?_ruleDeleteAttrs, children?_ruleLink, children?_ruleAriaEqPlaceholder,
    children?_ruleRoleEqTag]
  rcases children?_ruleSelect (ruleTextEqName (ruleAriaInName (ruleDescDup (ruleNameEqMmid n))))
    with h | h
  · rw [h, children?_ruleTextEqName, children?_ruleAriaInName, children?_ruleDescDup,
      children?_ruleNameEqMmid]
    left; rfl
  · rw [h]; right; rfl

theorem children?_processNodeStep (env : DomEnv) (a : Attrs) (cs' : Option (List AXNode)) :
    (processNodeStep env a cs').children? = cs'
    ∨ (processNodeStep env a cs').children? = none := by
  unfold processNodeStep
  cases hres : resolveMmid env a with
  | none => left; rfl
  | some m =>
      simp only []
      by_cases hm : m ≠ 0
      · rw [if_pos hm]
        cases hb : env.byMmid m with
        | none =>
            simp only [hb]
            split <;> simp
        | some el =>
            simp only [hb]
            cases hfe : fetchElementAttributes el m cs'.isNone with
            | none => simp only [hfe]; split <;> simp
            | some eattrs =>
                simp only [hfe]
                rcases children?_applyRules (updateAttrs
                    (setAttr (delAttr (if lookupA a "role" = some (.s "dialog")
                        ∧ isPyTrue (lookupA a "modal")
                      then setAttr (AXNode.mk a cs') "important information" (.s modalHint)
                      else AXNode.mk a cs') "keyshortcuts") "mmid" (.s (toString m))) eattrs)
                  with h | h
                · rw [h, children?_updateAttrs]
                  split <;> simp
                · rw [h]; right; rfl
      · rw [if_neg hm]
        split <;> simp

theorem unravel_key_processNodeStep (env : DomEnv) (a : Attrs) (cs' : Option (List AXNode)) :
    getAttr (processNodeStep env a cs') "marked_for_unravel_children"
      = lookupA a "marked_for_unravel_children" := by
  unfold processNodeStep
  cases hres : resolveMmid env a with
  | none => rfl
  | some m =>
      simp only []
      by_cases hm : m ≠ 0
      · rw [if_pos hm]
        cases hb : env.byMmid m with
        | none =>
            simp only [hb]
            split <;> simp
        | some el =>
            simp only [hb]
            cases hfe : fetchElementAttributes el m cs'.isNone with
            | none => simp only [hfe]; split <;> simp
            | some eattrs =>
                simp only [hfe]
                rw [getAttr_applyRules _ _ (by decide) (by decide) (by decide) (by decide)
                  (by decide) (by decide) (by decide) (by decide) (by decide) (by decide)]
                rw [getAttr_updateAttrs_notin _ _ _
                  (fetchElementAttributes_lookup_none el m cs'.isNone eattrs _ hfe
                    (by decide) (by decide) (by decide) (by decide) (by decide))]
                split <;> simp
      · rw [if_neg hm]
        split <;> simp

/-- The node does not carry the unravel marker. -/
def noUnravelNode (n : AXNode) : Bool :=
  (getAttr n "marked_for_unravel_children").isNone

/-- No node of the tree carries `marked_for_unravel_children`. -/
def noUnravelTree : AXNode → Bool :=
  allTree noUnravelNode

mutual

theorem noUnravel_processNode (env : DomEnv) : ∀ n : AXNode,
    noUnravelTree n = true → noUnravelTree (processNode env n) = true
  | .mk a none, h => by
      simp only [processNode]
      rw [noUnravelTree, allTree_iff]
      rcases children?_processNodeStep env a none with hc | hc
      all_goals rw [hc]
      all_goals simp only [noUnravelNode, unravel_key_processNodeStep, Bool.and_true]
      all_goals simpa [noUnravelTree, allTree, noUnravelNode, getAttr] using h
  | .mk a (some l), h => by
      simp only [processNode]
      rw [noUnravelTree, allTree_iff]
      have hparts : noUnravelNode (.mk a (some l)) = true ∧ allList noUnravelNode l = true := by
        simpa [noUnravelTree, allTree, Bool.and_eq_true] using h
      have hl := noUnravel_processList env l hparts.2
      rcases children?_processNodeStep env a (some (processList env l)) with hc | hc
      · rw [hc]
        simp only [noUnravelNode, unravel_key_processNodeStep]
        rw [Bool.and_eq_true]
        refine ⟨?_, hl⟩
        simpa [noUnravelNode, getAttr] using hparts.1
      · rw [hc]
        simp only [noUnravelNode, unravel_key_processNodeStep, Bool.and_true]
        simpa [noUnravelNode, getAttr] using hparts.1

theorem noUnravel_processList (env : DomEnv) : ∀ l : List AXNode,
    allList noUnravelNode l = true → allList noUnravelNode (processList env l) = true
  | [], _ => rfl
  | x :: xs, h => by
      have hparts : allTree noUnravelNode x = true ∧ allList noUnravelNode xs = true := by
        simpa [allList, Bool.and_eq_true] using h
      simp only [processList, allList]
      rw [Bool.and_eq_true]
      exact ⟨noUnravel_processNode env x hparts.1, noUnravel_processList env xs hparts.2⟩

end

mutual

/-- `__prune_tree` with the unravel branch removed — what the claim says
the loop amounts to when no node carries the unravel marker. -/
def pruneTreeNU : AXNode → Bool → Option AXNode
  | .mk a c, onlyInputFields =>
    if hasAttr (.mk a c) "marked_for_deletion_by_mm" then none
    else pruneDecide (pruneChildrenNU onlyInputFields a c) onlyInputFields

def pruneChildrenNU (onlyInputFields : Bool) (a : Attrs) : Option (List AXNode) → AXNode
  | some cs =>
      let cs' := pruneListNU onlyInputFields cs
      if cs'.isEmpty then AXNode.mk a none else AXNode.mk a (some cs')
  | none => AXNode.mk a none

/-- The child loop without the unravel branch: every child is recursively
pruned; no splicing of grandchildren ever happens. -/
def pruneListNU : Bool → List AXNode → List AXNode
  | _, [] => []
  | onlyInputFields, c :: rest =>
      match pruneTreeNU c onlyInputFields with
      | none => pruneListNU onlyInputFields rest
      | some c' => c' :: pruneListNU onlyInputFields rest

end

mutual

theorem pruneTree_eq_NU : ∀ (n : AXNode) (f : Bool),
    noUnravelTree n = true → pruneTree n f = pruneTreeNU n f
  | .mk a none, f, _ => by
      simp only [pruneTree, pruneTreeNU, pruneChildren, pruneChildrenNU]
  | .mk a (some cs), f, h => by
      have hcs : allList noUnravelNode cs = true := by
        have h2 := (allTree_iff noUnravelNode (.mk a (some cs))).symm.trans h
        rw [Bool.and_eq_true] at h2
        simpa using h2.2
      simp only [pruneTree, pruneTreeNU, pruneChildren, pruneChildrenNU]
      rw [pruneList_eq_NU f cs hcs]
termination_by n f h => sizeOf n

theorem pruneList_eq_NU : ∀ (f : Bool) (l : List AXNode),
    allList noUnravelNode l = true → pruneList f l = pruneListNU f l
  | _, [], _ => rfl
  | f, c :: rest, h => by
      have hparts : allTree noUnravelNode c = true ∧ allList noUnravelNode rest = true := by
        simpa [allList, Bool.and_eq_true] using h
      have hcu : hasAttr c "marked_for_unravel_children" = false := by
        have := (allTree_iff noUnravelNode c).symm.trans hparts.1
        rw [Bool.and_eq_true] at this
        have hroot := this.1
        simp only [noUnravelNode] at hroot
        simp [hasAttr, Option.isNone_iff_eq_none.mp hroot]
      simp only [pruneList, pruneListNU, hcu, Bool.false_eq_true, if_false]
      rw [pruneTree_eq_NU c f hparts.1, pruneList_eq_NU f rest hparts.2]
termination_by f l h => sizeOf l

end

/-- C10: no pipeline operation ever sets `marked_for_unravel_children`, so
for every raw snapshot free of the marker the pruner's unravel branch is
unreachable: the enriched tree is still marker-free, and pruning it equals
the unravel-free recursion — no node is ever replaced by its children. -/
theorem unravel_branch_unreachable (env : DomEnv) (t : AXNode) (f : Bool)
    (h : noUnravelTree t = true) :
    noUnravelTree (processNode env t) = true
    ∧ fetchDomInfo env t f = pruneTreeNU (processNode env t) f := by
  have hp := noUnravel_processNode env t h
  exact ⟨hp, pruneTree_eq_NU _ f hp⟩

/-- Witness for C10 on a concrete snapshot. -/
theorem unravel_branch_unreachable_witness :
    noUnravelTree (processNode env0 (.mk [("role", .s "WebArea")]
        (some [.mk [("role", .s "separator")] none]))) = true
    ∧ fetchDomInfo env0 (.mk [("role", .s "WebArea")]
        (some [.mk [("role", .s "separator")] none])) false
      = pruneTreeNU (processNode env0 (.mk [("role", .s "WebArea")]
          (some [.mk [("role", .s "separator")] none]))) false :=
  unravel_branch_unreachable env0 _ false rfl

/-- The claim's per-node property: a node identified as a `select` element
has no `children`, `role`, or `description`. -/
def selectOKNode (n : AXNode) : Bool :=
  if getAttr n "tag" = some (.s "select") then
    n.children?.isNone && (getAttr n "role").isNone && (getAttr n "description").isNone
  else true

/-- The node does not carry a `tag` field (raw snapshot nodes never do —
`tag` is written only by enrichment). -/
def noTagNode (n : AXNode) : Bool :=
  (getAttr n "tag").isNone

/-- No node of the tree carries a `tag` field. -/
def noTagTree : AXNode → Bool :=
  allTree noTagNode

theorem ruleRoleEqTag_role_none (n : AXNode) (h : getAttr n "role" = none) :
    getAttr (ruleRoleEqTag n) "role" = none := by
  unfold ruleRoleEqTag
  split <;> simp [h]

theorem ruleLink_of_not_link (n : AXNode) (h : getAttr n "role" ≠ some (.s "link")) :
    ruleLink n = n := by
  unfold ruleLink
  rw [if_neg h]

theorem selectOKNode_applyRules (n : AXNode) : selectOKNode (applyRules n) = true := by
  by_cases htag : getAttr (applyRules n) "tag" = some (.s "select")
  · have htag1 : getAttr (ruleSelect (ruleTextEqName (ruleAriaInName (ruleDescDup
        (ruleNameEqMmid n))))) "tag" = some (.s "select") := by
      have h := getAttr_applyRules n "tag" (by decide) (by decide) (by decide) (by decide)
        (by decide) (by decide) (by decide) (by decide) (by decide) (by decide)
      have h2 := getAttr_ruleNameEqMmid n "tag" (by decide)
      have h3 := getAttr_ruleDescDup (ruleNameEqMmid n) "tag" (by decide)
      have h4 := getAttr_ruleAriaInName (ruleDescDup (ruleNameEqMmid n)) "tag" (by decide)
      have h5 := getAttr_ruleTextEqName (ruleAriaInName (ruleDescDup (ruleNameEqMmid n)))
        "tag" (by decide)
      have h6 := getAttr_ruleSelect (ruleTextEqName (ruleAriaInName (ruleDescDup
        (ruleNameEqMmid n)))) "tag" (by decide) (by decide)
      rw [h6, h5, h4, h3, h2, ← h]
      exact htag
    set y := ruleSelect (ruleTextEqName (ruleAriaInName (ruleDescDup (ruleNameEqMmid n))))
      with hy
    have hyrole : getAttr y "role" = none := by
      rw [hy]
      unfold ruleSelect
      split
      · simp
      · rename_i hcond
        exfalso
        apply hcond
        have h5 := getAttr_ruleSelect (ruleTextEqName (ruleAriaInName (ruleDescDup
          (ruleNameEqMmid n)))) "tag" (by decide) (by decide)
        rw [hy] at htag1
        rw [h5] at htag1
        exact htag1
    have hydesc : getAttr y "description" = none := by
      rw [hy]
      unfold ruleSelect
      split
      · simp
      · rename_i hcond
        exfalso
        apply hcond
        have h5 := getAttr_ruleSelect (ruleTextEqName (ruleAriaInName (ruleDescDup
          (ruleNameEqMmid n)))) "tag" (by decide) (by decide)
        rw [hy] at htag1
        rw [h5] at htag1
        exact htag1
    have hych : y.children? = none := by
      rw [hy]
      unfold ruleSelect
      split
      · simp
      · rename_i hcond
        exfalso
        apply hcond
        have h5 := getAttr_ruleSelect (ruleTextEqName (ruleAriaInName (ruleDescDup
          (ruleNameEqMmid n)))) "tag" (by decide) (by decide)
        rw [hy] at htag1
        rw [h5] at htag1
        exact htag1
    -- push the three facts through the post-select rules
    have hr1 : getAttr (ruleRoleEqTag y) "role" = none := ruleRoleEqTag_role_none y hyrole
    have hr2 : getAttr (ruleAriaEqPlaceholder (ruleRoleEqTag y)) "role" = none := by
      rw [getAttr_ruleAriaEqPlaceholder _ _ (by decide)]
      exact hr1
    have hlink : ruleLink (ruleAriaEqPlaceholder (ruleRoleEqTag y))
        = ruleAriaEqPlaceholder (ruleRoleEqTag y) := by
      apply ruleLink_of_not_link
      rw [hr2]
      simp
    have hd1 : getAttr (ruleRoleEqTag y) "description" = none := by
      rw [getAttr_ruleRoleEqTag _ _ (by decide)]
      exact hydesc
    have hd2 : getAttr (ruleAriaEqPlaceholder (ruleRoleEqTag y)) "description" = none := by
      rw [getAttr_ruleAriaEqPlaceholder _ _ (by decide)]
      exact hd1
    have hc2 : (ruleAriaEqPlaceholder (ruleRoleEqTag y)).children? = none := by
      rw [children?_ruleAriaEqPlaceholder, children?_ruleRoleEqTag]
      exact hych
    unfold selectOKNode
    rw [if_pos htag]
    unfold applyRules
    rw [← hy, hlink]
    rw [Bool.and_eq_true, Bool.and_eq_true]
    refine ⟨⟨?_, ?_⟩, ?_⟩
    · rw [children?_ruleDeleteAttrs, hc2]
      rfl
    · rw [getAttr_ruleDeleteAttrs _ _ (by decide) (by decide) (by decide) (by decide)
        (by decide), hr2]
      rfl
    · rw [getAttr_ruleDeleteAttrs _ _ (by decide) (by decide) (by decide) (by decide)
        (by decide), hd2]
      rfl
  · unfold selectOKNode
    rw [if_neg htag]

theorem selectOKNode_processNodeStep (env : DomEnv) (a : Attrs) (cs' : Option (List AXNode))
    (hnt : lookupA a "tag" = none) :
    selectOKNode (processNodeStep env a cs') = true := by
  unfold processNodeStep
  cases hres : resolveMmid env a with
  | none => simp [selectOKNode, hnt]
  | some m =>
      simp only []
      by_cases hm : m ≠ 0
      · rw [if_pos hm]
        cases hb : env.byMmid m with
        | none =>
            simp only [hb]
            split <;> simp [selectOKNode, hnt]
        | some el =>
            simp only [hb]
            cases hfe : fetchElementAttributes el m cs'.isNone with
            | none => simp only [hfe]; split <;> simp [selectOKNode, hnt]
            | some eattrs =>
                simp only [hfe]
                exact selectOKNode_applyRules _
      · rw [if_neg hm]
        split <;> simp [selectOKNode, hnt]

mutual

theorem selectOK_processNode (env : DomEnv) : ∀ n : AXNode,
    noTagTree n = true → allTree selectOKNode (processNode env n) = true
  | .mk a none, h => by
      simp only [processNode]
      rw [allTree_iff]
      have hroot : lookupA a "tag" = none := by
        have h2 := (allTree_iff noTagNode (.mk a none)).symm.trans h
        rw [Bool.and_eq_true] at h2
        have := h2.1
        simpa [noTagNode, Option.isNone_iff_eq_none] using this
      rcases children?_processNodeStep env a none with hc | hc
      all_goals rw [hc]
      all_goals simp only [Bool.and_true]
      all_goals exact selectOKNode_processNodeStep env a none hroot
  | .mk a (some l), h => by
      simp only [processNode]
      rw [allTree_iff]
      have h2 := (allTree_iff noTagNode (.mk a (some l))).symm.trans h
      rw [Bool.and_eq_true] at h2
      have hroot : lookupA a "tag" = none := by
        simpa [noTagNode, Option.isNone_iff_eq_none] using h2.1
      have hl : allList selectOKNode (processList env l) = true :=
        selectOK_processList env l (by simpa using h2.2)
      rcases children?_processNodeStep env a (some (processList env l)) with hc | hc
      · rw [hc]
        rw [Bool.and_eq_true]
        exact ⟨selectOKNode_processNodeStep env a (some (processList env l)) hroot, hl⟩
      · rw [hc]
        simp only [Bool.and_true]
        exact selectOKNode_processNodeStep env a (some (processList env l)) hroot

theorem selectOK_processList (env : DomEnv) : ∀ l : List AXNode,
    allList noTagNode l = true → allList selectOKNode (processList env l) = true
  | [], _ => rfl
  | x :: xs, h => by
      have hparts : allTree noTagNode x = true ∧ allList noTagNode xs = true := by
        simpa [allList, Bool.and_eq_true] using h
      simp only [processList, allList]
      rw [Bool.and_eq_true]
      exact ⟨selectOK_processNode env x hparts.1, selectOK_processList env xs hparts.2⟩

end

theorem allList_append (p : AXNode → Bool) (xs ys : List AXNode) :
    allList p (xs ++ ys) = (allList p xs && allList p ys) := by
  induction xs with
  | nil => simp [allList]
  | cons x xs ih => simp [allList, ih, Bool.and_assoc]

mutual

theorem selectOK_pruneTree : ∀ (n : AXNode) (f : Bool) (m : AXNode),
    allTree selectOKNode n = true → pruneTree n f = some m →
    allTree selectOKNode m = true
  | .mk a c, f, m, h, hpt => by
      simp only [pruneTree] at hpt
      by_cases hmark : hasAttr (.mk a c) "marked_for_deletion_by_mm"
      · rw [if_pos hmark] at hpt; cases hpt
      · rw [if_neg hmark] at hpt
        unfold pruneDecide at hpt
        by_cases hsp : shouldPruneNode (pruneChildren f a c) f
        · rw [if_pos hsp] at hpt; cases hpt
        · rw [if_neg hsp] at hpt
          have hm := Option.some.inj hpt
          rw [← hm]
          have h2 := (allTree_iff selectOKNode (.mk a c)).symm.trans h
          rw [Bool.and_eq_true] at h2
          cases c with
          | none =>
              simp only [pruneChildren]
              rw [allTree_iff]
              simpa using h2.1
          | some cs =>
              have hroot := h2.1
              have htagne : ¬ (getAttr (AXNode.mk a (some cs)) "tag" = some (.s "select")) := by
                intro he
                unfold selectOKNode at hroot
                rw [if_pos he] at hroot
                simp at hroot
              have hcs : allList selectOKNode cs = true := by simpa using h2.2
              have hcs' := selectOK_pruneList f cs hcs
              simp only [pruneChildren]
              by_cases he : (pruneList f cs).isEmpty
              · rw [if_pos he]
                rw [allTree_iff]
                simp only [AXNode.children?_mk, Bool.and_true]
                unfold selectOKNode
                rw [if_neg (by simpa using htagne)]
              · rw [if_neg he]
                rw [allTree_iff]
                simp only [AXNode.children?_mk]
                rw [Bool.and_eq_true]
                constructor
                · unfold selectOKNode
                  rw [if_neg (by simpa using htagne)]
                · exact hcs'
termination_by n f m h hpt => sizeOf n

theorem selectOK_pruneList : ∀ (f : Bool) (l : List AXNode),
    allList selectOKNode l = true → allList selectOKNode (pruneList f l) = true
  | _, [], _ => rfl
  | f, c :: rest, h => by
      have hparts : allTree selectOKNode c = true ∧ allList selectOKNode rest = true := by
        simpa [allList, Bool.and_eq_true] using h
      simp only [pruneList]
      by_cases hu : hasAttr c "marked_for_unravel_children"
      · rw [if_pos hu]
        cases hc : c.children? with
        | none =>
            simp only [List.nil_append]
            exact selectOK_pruneList f rest hparts.2
        | some ccs =>
            have hccs : allList selectOKNode ccs = true := by
              have h2 := (allTree_iff selectOKNode c).symm.trans hparts.1
              rw [Bool.and_eq_true] at h2
              have := h2.2
              rw [hc] at this
              simpa using this
            rw [allList_append, Bool.and_eq_true]
            exact ⟨hccs, selectOK_pruneList f rest hparts.2⟩
      · rw [if_neg hu]
        cases hpt : pruneTree c f with
        | none => exact selectOK_pruneList f rest hparts.2
        | some c' =>
            simp only [allList]
            rw [Bool.and_eq_true]
            exact ⟨selectOK_pruneTree c f c' hparts.1 hpt, selectOK_pruneList f rest hparts.2⟩
termination_by f l h => sizeOf l

end

/-- C7: for a raw snapshot (whose nodes never carry a `tag` field — that
field is written only by enrichment), every node of the final output tree
identified as a `select` element has none of `children`, `role` or
`description`, for both pruning modes. -/
theorem select_nodes_atomic_in_output (env : DomEnv) (t : AXNode) (f : Bool) (out : AXNode)
    (hnt : noTagTree t = true)
    (hout : fetchDomInfo env t f = some out) :
    allTree selectOKNode out = true := by
  have h1 := selectOK_processNode env t hnt
  exact selectOK_pruneTree (processNode env t) f out h1 hout

/-- A page whose element 7 is a `<select>`. -/
def selectEnv : DomEnv :=
  ⟨fun m => if m = 7 then some ⟨"SELECT", "", "", "", [("mmid", "7")]⟩ else none,
   fun _ => none⟩

/-- Witness for C7: a snapshot node resolving to the select element keeps
`tag`/`mmid`/`name` but loses `children`, `role` and `description`. -/
theorem select_nodes_atomic_in_output_witness :
    allTree selectOKNode (.mk [("name", .s "Choose"), ("tag", .s "select"),
        ("mmid", .s "7")] none) = true :=
  select_nodes_atomic_in_output selectEnv
    (.mk [("keyshortcuts", .s "7"), ("name", .s "Choose"), ("role", .s "combobox")]
      (some [.mk [("role", .s "option"), ("name", .s "A")] none]))
    false _ rfl rfl
